import Mathlib

/-!
Shallow embedding of the document-retrieval / citation engine of the
FlightSight web app: `web/src/lib/knowledgeBase.ts` (corpus store, lexical
scorer, retrieval engine) and `web/src/lib/overlayRelevance.ts` (relevance
composer), together with `isOnTaskCard` from `web/src/lib/rag.ts`.

Modelling conventions:
- JS strings are Lean `String`s; all character-level operations
  (lowercasing, the `[^a-z0-9\s]` strip, `includes`, `trim`, `split(/\s+/)`)
  are implemented over `String.data` so concrete inputs evaluate by `decide`.
  JS `toLowerCase` is modelled per character by `Char.toLower` (exact on the
  ASCII inputs the engine works with), and the `\s` class by the six ASCII
  whitespace characters.
- A JS value that may be `undefined` or `null` is an `Option`; string
  interpolation of such a missing value is rendered as the text `null`
  (the two JS spellings `undefined`/`null` are collapsed into `none`).
- JS truthiness on an optional string (`v ? ... : ...`, `v || d`) is:
  present and non-empty.
- The asynchronous corpus load is modelled by its resolution: a function
  from the fetch/parse outcome (`Except`) to the stored knowledge base.
- Scores are `Nat` (every increment in the source is a positive integer).
- The `Scored` record carries, besides the source's `{chunk, score}` pair,
  the chunk's position `idx` in the loaded corpus; it is used only to state
  the stable-sort / tie-breaking properties.
-/

namespace FlightSight

/-- The six ASCII characters matched by the JS regex class `\s`
(space, tab, line feed, vertical tab, form feed, carriage return). -/
def jsWhitespace (c : Char) : Bool :=
  c == ' ' || c == '\t' || c == '\n' || c == '\x0b' || c == '\x0c' || c == '\r'

/-- Characters kept by `replace(/[^a-z0-9\s]/g, '')` (applied after
lowercasing): lowercase letters, digits, whitespace. -/
def keepChar (c : Char) : Bool :=
  ('a' ≤ c && c ≤ 'z') || ('0' ≤ c && c ≤ '9') || jsWhitespace c

/-- JS `s.toLowerCase()`, character by character. -/
def lowerStr (s : String) : String :=
  String.mk (s.data.map Char.toLower)

/-- The query normalization of `searchKB` / `searchKBSync`:
`componentLabel.toLowerCase().replace(/[^a-z0-9\s]/g, '')`. -/
def normalizeQuery (s : String) : String :=
  String.mk ((lowerStr s).data.filter keepChar)

/-- Helper for `query.split(/\s+/).filter(Boolean)`: accumulates the current
word (reversed) while walking the characters. -/
def splitWsAux : List Char → List Char → List String
  | [], acc => if acc.isEmpty then [] else [String.mk acc.reverse]
  | c :: cs, acc =>
    if jsWhitespace c then
      if acc.isEmpty then splitWsAux cs [] else String.mk acc.reverse :: splitWsAux cs []
    else
      splitWsAux cs (c :: acc)

/-- `query.split(/\s+/).filter(Boolean)` of the source. -/
def queryWordsOf (query : String) : List String :=
  splitWsAux query.data []

/-- Is `needle` a prefix of `haystack` (character lists)? -/
def charsPrefixOf : List Char → List Char → Bool
  | [], _ => true
  | _ :: _, [] => false
  | a :: as, b :: bs => a == b && charsPrefixOf as bs

/-- Does the character list contain `needle` as a contiguous run? -/
def charsInfixOf (needle : List Char) : List Char → Bool
  | [] => charsPrefixOf needle []
  | c :: cs => charsPrefixOf needle (c :: cs) || charsInfixOf needle cs

/-- JS `s.includes(sub)`. -/
def jsIncludes (s sub : String) : Bool :=
  charsInfixOf sub.data s.data

/-- JS `opt || d` on an optional string (falsy = absent or empty). -/
def jsOrDefault (o : Option String) (d : String) : String :=
  match o with
  | some s => if s = "" then d else s
  | none => d

/-- JS truthiness of an optional string. -/
def jsTruthyOpt (o : Option String) : Bool :=
  match o with
  | some s => s != ""
  | none => false

/-- Interpolation `${v}` of an optional string (missing values render as
the literal text `null`; see the modelling conventions above). -/
def jsStrOfOpt (o : Option String) : String :=
  match o with
  | some s => s
  | none => "null"

/-- JS `s.trim()` (whitespace stripped from both ends). -/
def jsTrim (s : String) : String :=
  String.mk (((s.data.dropWhile jsWhitespace).reverse.dropWhile jsWhitespace).reverse)

/-- `KBChunk` of `knowledgeBase.ts` (the spec's Chunk). `section` is a
reserved word in Lean, so the field is spelled `sectionId`. -/
structure KBChunk where
  id : String
  component : String
  keywords : List String
  sectionId : String
  sectionTitle : String
  page : Int
  figure : Option String := none
  figureTitle : Option String := none
  content : String
  table : Option String := none
  manual : Option String := none
deriving Repr, DecidableEq

/-- The `manual` metadata record of `KBData`. -/
structure ManualInfo where
  title : String
  documentNumber : String
  revision : String
  totalPages : Int
  pdfFile : String
deriving Repr, DecidableEq

/-- `KBData` of `knowledgeBase.ts` (the spec's Corpus). -/
structure KBData where
  manual : ManualInfo
  chunks : List KBChunk
deriving Repr, DecidableEq

/-- `ManualRef` of `knowledgeBase.ts` (the spec's Citation). -/
structure ManualRef where
  page : Int
  sectionId : String
  sectionTitle : String
  figure : Option String := none
  figureTitle : Option String := none
  pdfUrl : String
  manualName : Option String := none
deriving Repr, DecidableEq

/-- `KBSearchResult` of `knowledgeBase.ts` (the spec's RetrievalResult). -/
structure KBSearchResult where
  chunks : List KBChunk
  primaryRef : Option ManualRef
  refs : List ManualRef
  contextText : String
deriving Repr, DecidableEq

/-- The `MANUAL_PDFS` record. -/
def MANUAL_PDFS (key : String) : Option String :=
  if key = "cessna172" then some "/manuals/cessna172-sm.pdf"
  else if key = "o320" then some "/manuals/o320-operators-manual.pdf"
  else none

/-- The `MANUAL_NAMES` record. -/
def MANUAL_NAMES (key : String) : Option String :=
  if key = "cessna172" then some "Cessna SM"
  else if key = "o320" then some "O-320 OM"
  else none

/-- `getPdfForChunk(chunk, defaultPdf)`. -/
def getPdfForChunk (chunk : KBChunk) (defaultPdf : String) : String :=
  let key := jsOrDefault chunk.manual "cessna172"
  match MANUAL_PDFS key with
  | some p => p
  | none => defaultPdf

/-- `getManualName(chunk)`. -/
def getManualName (chunk : KBChunk) : String :=
  let key := jsOrDefault chunk.manual "cessna172"
  match MANUAL_NAMES key with
  | some n => n
  | none => "SM"

/-- The empty knowledge base installed when the fetch or parse fails. -/
def emptyKB : KBData :=
  { manual := { title := "", documentNumber := "", revision := "", totalPages := 0, pdfFile := "" },
    chunks := [] }

/-- `loadKnowledgeBase`, modelled by the resolution of its fetch: a
successfully parsed body is stored exactly as received — the source performs
no validation of any chunk field — and a failed fetch/parse falls back to
`emptyKB`. -/
def loadKnowledgeBase : Except String KBData → KBData
  | Except.ok data => data
  | Except.error _ => emptyKB

/-- The corpus store's read side (the spec's `allChunks()`): the chunk list
of the stored knowledge base. -/
def allChunks (kb : KBData) : List KBChunk :=
  kb.chunks

/-- Inner loop of the per-word scan of `searchKB`: the first keyword
satisfying one of the three rules contributes (+10 exact, +5 keyword
contains word, +3 word contains keyword of length > 3) and the scan breaks. -/
def wordScore (allKeywords : List String) (word : String) : Nat :=
  match allKeywords with
  | [] => 0
  | kw :: rest =>
    if kw = word then 10
    else if jsIncludes kw word then 5
    else if jsIncludes word kw && kw.length > 3 then 3
    else wordScore rest word

/-- The full-phrase keyword loop of `searchKB` (lines 134-138): an exact
match of a lowercased keyword with the normalized query adds 20 and breaks;
otherwise every keyword of length > 3 contained in the query adds 8 (this
branch does not break). -/
def keywordPhraseScore : List String → String → Nat
  | [], _ => 0
  | kw :: rest, query =>
    if lowerStr kw = query then 20
    else (if jsIncludes query (lowerStr kw) && kw.length > 3 then 8 else 0)
      + keywordPhraseScore rest query

/-- The per-chunk score of `searchKB` for an already-normalized query and
its word list. -/
def scoreChunk (query : String) (queryWords : List String) (chunk : KBChunk) : Nat :=
  let allKeywords := (chunk.keywords ++ [chunk.component, chunk.sectionTitle]).map lowerStr
  let wordPart := (queryWords.map (wordScore allKeywords)).sum
  let phrasePart := keywordPhraseScore chunk.keywords query
  let componentExact := if lowerStr chunk.component = query then 25 else 0
  let queryHasComponent := if jsIncludes query (lowerStr chunk.component) then 12 else 0
  let componentHasQuery := if jsIncludes (lowerStr chunk.component) query then 12 else 0
  let contentLower := lowerStr chunk.content
  let contentPart :=
    2 * (queryWords.filter (fun w => w.length > 3 && jsIncludes contentLower w)).length
  wordPart + phrasePart + componentExact + queryHasComponent + componentHasQuery + contentPart

/-- The spec's `score(query, chunk)`: normalization followed by the tiered
per-chunk scoring of `searchKB`. -/
def score (componentLabel : String) (chunk : KBChunk) : Nat :=
  scoreChunk (normalizeQuery componentLabel) (queryWordsOf (normalizeQuery componentLabel)) chunk

/-- A chunk paired with its score for one query, plus its position in the
loaded corpus (`idx`, used only to state order/stability properties). -/
structure Scored where
  idx : Nat
  chunk : KBChunk
  score : Nat
deriving Repr, DecidableEq

/-- `chunks.map((chunk) => ({ chunk, score: f(chunk) }))`, recording each
chunk's corpus position starting at `i`. -/
def scoreListFrom (f : KBChunk → Nat) : Nat → List KBChunk → List Scored
  | _, [] => []
  | i, c :: cs => ⟨i, c, f c⟩ :: scoreListFrom f (i + 1) cs

/-- The scoring pass of `searchKB` over the whole corpus. -/
def scoreAll (query : String) (chunks : List KBChunk) : List Scored :=
  scoreListFrom (scoreChunk query (queryWordsOf query)) 0 chunks

/-- Insert into a descending-by-score list, before the first element of
score ≤ the inserted one (the inserted element precedes equal scores that
followed it in the original list). -/
def insertDesc (x : Scored) : List Scored → List Scored
  | [] => [x]
  | y :: ys => if y.score ≤ x.score then x :: y :: ys else y :: insertDesc x ys

/-- The stable descending-by-score sort: the extensional behaviour of the
source's `.sort((a, b) => b.score - a.score)` (JS `Array.prototype.sort` is
stable). -/
def sortByScoreDesc : List Scored → List Scored
  | [] => []
  | x :: xs => insertDesc x (sortByScoreDesc xs)

/-- The ranking pipeline of `searchKB`: score, filter to positive scores,
stable-sort descending, truncate to `maxChunks`. -/
def rankedScored (componentLabel : String) (kb : KBData) (maxChunks : Nat) : List Scored :=
  ((sortByScoreDesc
    ((scoreAll (normalizeQuery componentLabel) kb.chunks).filter
      (fun s => decide (0 < s.score)))).take maxChunks)

/-- `kb.manual.pdfFile || '/manuals/cessna172-sm.pdf'`. -/
def defaultPdfOf (kb : KBData) : String :=
  jsOrDefault kb.manual.pdfFile "/manuals/cessna172-sm.pdf"

/-- Build one `ManualRef` from a ranked chunk (the ref-construction `map`
of `searchKB`). -/
def mkRef (chunk : KBChunk) (defaultPdf : String) : ManualRef :=
  { page := chunk.page, sectionId := chunk.sectionId, sectionTitle := chunk.sectionTitle,
    figure := chunk.figure, figureTitle := chunk.figureTitle,
    pdfUrl := getPdfForChunk chunk defaultPdf ++ "#page=" ++ toString chunk.page,
    manualName := some (getManualName chunk) }

/-- The dedup key `` `${r.manualName}:${r.page}` `` of both search functions. -/
def refKey (r : ManualRef) : String :=
  jsStrOfOpt r.manualName ++ ":" ++ toString r.page

/-- Walk the refs keeping each one whose key was not seen before. -/
def dedupByKey : List ManualRef → List String → List ManualRef
  | [], _ => []
  | r :: rs, seen =>
    if seen.contains (refKey r) then dedupByKey rs seen
    else r :: dedupByKey rs (refKey r :: seen)

/-- The `seenKeys`-set deduplication of the ref list (first occurrence of
each key wins, later duplicates dropped). -/
def dedupRefs (rs : List ManualRef) : List ManualRef :=
  dedupByKey rs []

/-- The pre-deduplication ref list built from the ranked chunks. -/
def rawRefs (componentLabel : String) (kb : KBData) (maxChunks : Nat) : List ManualRef :=
  (rankedScored componentLabel kb maxChunks).map (fun m => mkRef m.chunk (defaultPdfOf kb))

/-- One entry of `contextText` in `searchKB`. -/
def contextLine (chunk : KBChunk) : String :=
  let fig :=
    if jsTruthyOpt chunk.figure then
      " (Figure " ++ jsStrOfOpt chunk.figure ++ ": " ++ jsStrOfOpt chunk.figureTitle ++ ")"
    else ""
  "[" ++ getManualName chunk ++ " Section " ++ chunk.sectionId ++ ", p."
    ++ toString chunk.page ++ fig ++ "]: " ++ chunk.content

/-- `searchKB(componentLabel, maxChunks)` against an already-loaded
knowledge base (the `await loadKnowledgeBase()` having resolved to `kb`). -/
def searchKB (componentLabel : String) (kb : KBData) (maxChunks : Nat) : KBSearchResult :=
  if kb.chunks.isEmpty then { chunks := [], primaryRef := none, refs := [], contextText := "" }
  else
    let matched := rankedScored componentLabel kb maxChunks
    if matched.isEmpty then { chunks := [], primaryRef := none, refs := [], contextText := "" }
    else
      let uniqueRefs := dedupRefs (matched.map (fun m => mkRef m.chunk (defaultPdfOf kb)))
      { chunks := matched.map (fun m => m.chunk),
        primaryRef := uniqueRefs.head?,
        refs := uniqueRefs,
        contextText := String.intercalate "\n\n" (matched.map (fun m => contextLine m.chunk)) }

/-- Inner loop of the per-word scan of `searchKBSync`: first keyword related
to the word by containment in either direction gives +5 and breaks. -/
def syncWordScore (allKw : List String) (word : String) : Nat :=
  match allKw with
  | [] => 0
  | kw :: rest =>
    if jsIncludes kw word || jsIncludes word kw then 5 else syncWordScore rest word

/-- The per-chunk score of `searchKBSync`. -/
def syncScoreChunk (query : String) (queryWords : List String) (chunk : KBChunk) : Nat :=
  let allKw := (chunk.keywords ++ [chunk.component]).map lowerStr
  let wordPart := (queryWords.map (syncWordScore allKw)).sum
  let containPart :=
    if jsIncludes (lowerStr chunk.component) query || jsIncludes query (lowerStr chunk.component)
    then 15 else 0
  wordPart + containPart

/-- The spec-level per-chunk score of the synchronous lookup. -/
def syncScore (componentLabel : String) (chunk : KBChunk) : Nat :=
  syncScoreChunk (normalizeQuery componentLabel) (queryWordsOf (normalizeQuery componentLabel)) chunk

/-- The scoring pass of `searchKBSync`. -/
def syncScoreAll (query : String) (chunks : List KBChunk) : List Scored :=
  scoreListFrom (syncScoreChunk query (queryWordsOf query)) 0 chunks

/-- The ranking pipeline of `searchKBSync`. -/
def rankedScoredSync (componentLabel : String) (kb : KBData) (maxChunks : Nat) : List Scored :=
  ((sortByScoreDesc
    ((syncScoreAll (normalizeQuery componentLabel) kb.chunks).filter
      (fun s => decide (0 < s.score)))).take maxChunks)

/-- One entry of `contextText` in `searchKBSync`. -/
def syncContextLine (chunk : KBChunk) : String :=
  "[" ++ getManualName chunk ++ " p." ++ toString chunk.page ++ "]: " ++ chunk.content

/-- `searchKBSync(componentLabel, maxChunks)`; `kbState` is the module-level
`_kb` (`none` while the knowledge base has not finished loading). Returns
`none` when not loaded or when nothing scores above zero. -/
def searchKBSync (componentLabel : String) (kbState : Option KBData) (maxChunks : Nat) :
    Option KBSearchResult :=
  match kbState with
  | none => none
  | some kb =>
    let matched := rankedScoredSync componentLabel kb maxChunks
    if matched.isEmpty then none
    else
      let refs := dedupRefs (matched.map (fun m => mkRef m.chunk (defaultPdfOf kb)))
      some
        { chunks := matched.map (fun m => m.chunk),
          primaryRef := refs.head?,
          refs := refs,
          contextText := String.intercalate "\n" (matched.map (fun m => syncContextLine m.chunk)) }

/-- The fields of `PersonProfile` (`rag.ts`) read by the relevance composer;
the remaining profile fields are never consulted by `getOverlaySnippet` or
`isOnTaskCard`. -/
structure PersonProfile where
  taskCardItems : List String
deriving Repr, DecidableEq

/-- `isOnTaskCard(label, profile)` from `rag.ts`: some task-card item
contains the lowercased label or is contained in it. -/
def isOnTaskCard (label : String) (profile : PersonProfile) : Bool :=
  let lower := lowerStr label
  profile.taskCardItems.any
    (fun item => jsIncludes lower (lowerStr item) || jsIncludes (lowerStr item) lower)

/-- `EmphasisLevel` of `overlayRelevance.ts`. -/
inductive EmphasisLevel
  | high
  | medium
  | none
deriving Repr, DecidableEq

/-- `OverlaySnippet` of `overlayRelevance.ts` (the spec's DisplayDirective). -/
structure OverlaySnippet where
  emphasis : EmphasisLevel
  badge : Option String := Option.none
  line : Option String := Option.none
  manualRef : Option ManualRef := Option.none
deriving Repr, DecidableEq

/-- The formatted citation line `` `${mName} p.${page}${fig}` `` shared by the
no-profile branch and the `smRef` of the profile branch. -/
def fmtRef (mr : ManualRef) : String :=
  jsOrDefault mr.manualName "SM" ++ " p." ++ toString mr.page
    ++ (if jsTruthyOpt mr.figure then ", Fig " ++ jsStrOfOpt mr.figure else "")

/-- The display-line assembly of `getOverlaySnippet` (trimmed annotation,
then the citation appended unless the line already contains the
substring `" p."`). -/
def composeLine (manualRef : Option ManualRef) (relevanceFromApi : Option String) : String :=
  let hasRelevance :=
    match relevanceFromApi with
    | some s => jsTrim s != ""
    | none => false
  let line0 :=
    if hasRelevance then
      jsTrim (match relevanceFromApi with | some s => s | none => "")
    else ""
  match manualRef with
  | some mr =>
    if jsIncludes line0 " p." then line0
    else if line0 = "" then fmtRef mr
    else line0 ++ " · " ++ fmtRef mr
  | none => line0

/-- `getOverlaySnippet(label, profile, relevanceFromApi)`; `kbState` is the
module-level `_kb` read by its `searchKBSync(label, 1)` call. -/
def getOverlaySnippet (kbState : Option KBData) (label : String)
    (profile : Option PersonProfile) (relevanceFromApi : Option String) : OverlaySnippet :=
  let manualRef :=
    match searchKBSync label kbState 1 with
    | some r => r.primaryRef
    | none => Option.none
  match profile with
  | none =>
    match manualRef with
    | some mr =>
      { emphasis := EmphasisLevel.medium, line := some (fmtRef mr), manualRef := some mr }
    | none => { emphasis := EmphasisLevel.none }
  | some prof =>
    let onCard := isOnTaskCard label prof
    let line := composeLine manualRef relevanceFromApi
    if onCard && line != "" then
      { emphasis := EmphasisLevel.high, badge := some "On task card",
        line := some line, manualRef := manualRef }
    else if onCard then
      { emphasis := EmphasisLevel.high, badge := some "On task card", manualRef := manualRef }
    else if line != "" then
      { emphasis := if manualRef.isSome then EmphasisLevel.medium else EmphasisLevel.high,
        line := some line, manualRef := manualRef }
    else
      { emphasis := EmphasisLevel.none, manualRef := manualRef }


/-- The strict ranking order produced by the retrieval engine: higher score
first, ties broken by earlier corpus position. -/
def rankLT (a b : Scored) : Prop :=
  b.score < a.score ∨ (a.score = b.score ∧ a.idx < b.idx)

/-- The qualification test of the +8 branch of the full-phrase keyword loop:
the (normalized) query contains the lowercased keyword and the keyword is
longer than three characters. -/
def plusEightKw (query kw : String) : Bool :=
  jsIncludes query (lowerStr kw) && kw.length > 3

/-- The synchronous lookup with its `null` collapsed to the empty result,
used to state citation properties uniformly over both outcomes. -/
def syncResultOf (label : String) (kb : KBData) (k : Nat) : KBSearchResult :=
  (searchKBSync label (some kb) k).getD
    { chunks := [], primaryRef := none, refs := [], contextText := "" }

/-- Test fixture: an ignition chunk carrying a figure reference. -/
def sparkChunk : KBChunk :=
  { id := "ign-1", component := "spark plug", keywords := ["spark plug", "ignition"],
    sectionId := "74", sectionTitle := "Ignition System", page := 305,
    figure := some "12-1", figureTitle := some "Engine Ignition",
    content := "Spark plug service and gap." }

/-- Test fixture: a brake chunk without a figure. -/
def brakeChunk : KBChunk :=
  { id := "brk-1", component := "brake caliper", keywords := ["brake", "caliper"],
    sectionId := "32", sectionTitle := "Landing Gear Brakes", page := 210,
    content := "Brake caliper inspection." }

/-- Test fixture: a two-chunk corpus with valid metadata. -/
def kbMain : KBData :=
  { manual := { title := "Cessna 172 Service Manual", documentNumber := "D2065",
                revision := "3", totalPages := 400, pdfFile := "/manuals/cessna172-sm.pdf" },
    chunks := [sparkChunk, brakeChunk] }

/-- Test fixture: a chunk whose component contains a hyphen, which the query
normalization strips. -/
def hyphenChunk : KBChunk :=
  { id := "eng-1", component := "o-320", keywords := ["zzzz"],
    sectionId := "71", sectionTitle := "Maintenance", page := 7,
    content := "Engine overhaul." }

/-- Test fixture: a profile whose task card matches nothing. -/
def noCardProfile : PersonProfile :=
  { taskCardItems := [] }

/-- Test fixture: an ordinary chunk with a non-empty component. -/
def alphaChunk : KBChunk :=
  { id := "al-1", component := "alpha", keywords := ["alpha"],
    sectionId := "1", sectionTitle := "Alpha", page := 2, content := "Alpha text." }

/-- Test fixture: a chunk whose component is the empty string. -/
def emptyCompChunk : KBChunk :=
  { id := "ec-1", component := "", keywords := ["beta"],
    sectionId := "2", sectionTitle := "Beta", page := 3, content := "Beta text." }

/-- Test fixture: corpus mixing a normal chunk with an empty-component one. -/
def kbEmptyComp : KBData :=
  { manual := kbMain.manual, chunks := [alphaChunk, emptyCompChunk] }

/-- Test fixture: a chunk violating the spec invariant `page ≥ 1`. -/
def badPageChunk : KBChunk :=
  { id := "bad-1", component := "oil filter", keywords := ["oil filter"],
    sectionId := "12", sectionTitle := "Servicing", page := 0,
    content := "Oil filter servicing." }

/-- Test fixture: a parsed corpus containing the invalid-page chunk. -/
def badPageCorpus : KBData :=
  { manual := kbMain.manual, chunks := [badPageChunk] }


theorem mem_scoreListFrom {f : KBChunk → Nat} {s : Scored} {i : Nat} {cs : List KBChunk}
    (h : s ∈ scoreListFrom f i cs) :
    s.score = f s.chunk ∧ ∃ j, s.idx = i + j ∧ cs[j]? = some s.chunk := by
  induction cs generalizing i with
  | nil => simp [scoreListFrom] at h
  | cons c cs ih =>
    simp only [scoreListFrom, List.mem_cons] at h
    rcases h with h | h
    · subst h
      exact ⟨rfl, 0, rfl, by simp⟩
    · obtain ⟨hs, j, hidx, hget⟩ := ih h
      refine ⟨hs, j + 1, by omega, ?_⟩
      simpa using hget

theorem scoreListFrom_map_chunk (f : KBChunk → Nat) :
    ∀ (i : Nat) (cs : List KBChunk), (scoreListFrom f i cs).map (fun s => s.chunk) = cs
  | _, [] => rfl
  | i, c :: cs => by
    simp only [scoreListFrom, List.map_cons, scoreListFrom_map_chunk f (i + 1) cs]

theorem scoreListFrom_idx_le {f : KBChunk → Nat} {s : Scored} {i : Nat} {cs : List KBChunk}
    (h : s ∈ scoreListFrom f i cs) : i ≤ s.idx := by
  obtain ⟨-, j, hidx, -⟩ := mem_scoreListFrom h
  omega

theorem scoreListFrom_idx_pairwise (f : KBChunk → Nat) :
    ∀ (i : Nat) (cs : List KBChunk),
      (scoreListFrom f i cs).Pairwise (fun a b => a.idx < b.idx)
  | _, [] => List.Pairwise.nil
  | i, c :: cs => by
    refine List.pairwise_cons.mpr ⟨fun y hy => ?_, scoreListFrom_idx_pairwise f (i + 1) cs⟩
    have := scoreListFrom_idx_le hy
    show i < y.idx
    omega

theorem mem_insertDesc {z x : Scored} : ∀ {l : List Scored}, z ∈ insertDesc x l ↔ z = x ∨ z ∈ l
  | [] => by simp [insertDesc]
  | y :: ys => by
    by_cases h : y.score ≤ x.score
    · simp [insertDesc, h]
    · simp only [insertDesc, if_neg h, List.mem_cons, mem_insertDesc (l := ys)]
      tauto

theorem rankLT_score_le {a b : Scored} (h : rankLT a b) : b.score ≤ a.score := by
  rcases h with h | ⟨h, -⟩ <;> omega

theorem insertDesc_sorted {x : Scored} :
    ∀ {l : List Scored}, l.Pairwise rankLT → (∀ y ∈ l, x.idx < y.idx) →
      (insertDesc x l).Pairwise rankLT := by
  intro l
  induction l with
  | nil => intro _ _; simp [insertDesc]
  | cons y ys ih =>
    intro hl hx
    rcases List.pairwise_cons.mp hl with ⟨hy, hys⟩
    by_cases h : y.score ≤ x.score
    · rw [insertDesc, if_pos h]
      refine List.pairwise_cons.mpr ⟨?_, hl⟩
      intro z hz
      rcases List.mem_cons.mp hz with rfl | hz'
      · have hix : x.idx < z.idx := hx z (List.mem_cons_self _ _)
        rcases Nat.lt_or_ge z.score x.score with hlt | hge
        · exact Or.inl hlt
        · exact Or.inr ⟨by omega, hix⟩
      · have hzy : z.score ≤ y.score := rankLT_score_le (hy z hz')
        have hix : x.idx < z.idx := hx z (List.mem_cons_of_mem _ hz')
        rcases Nat.lt_or_ge z.score x.score with hlt | hge
        · exact Or.inl hlt
        · exact Or.inr ⟨by omega, hix⟩
    · rw [insertDesc, if_neg h]
      refine List.pairwise_cons.mpr
        ⟨?_, ih hys (fun a ha => hx a (List.mem_cons_of_mem _ ha))⟩
      intro z hz
      rcases mem_insertDesc.mp hz with rfl | hz'
      · exact Or.inl (by omega)
      · exact hy z hz'

theorem mem_sortByScoreDesc {z : Scored} :
    ∀ {l : List Scored}, z ∈ sortByScoreDesc l ↔ z ∈ l
  | [] => Iff.rfl
  | x :: xs => by
    rw [sortByScoreDesc, mem_insertDesc]
    simp [mem_sortByScoreDesc (l := xs)]

theorem sortByScoreDesc_sorted :
    ∀ {l : List Scored}, l.Pairwise (fun a b => a.idx < b.idx) →
      (sortByScoreDesc l).Pairwise rankLT := by
  intro l
  induction l with
  | nil => intro _; exact List.Pairwise.nil
  | cons x xs ih =>
    intro h
    rcases List.pairwise_cons.mp h with ⟨hx, hxs⟩
    rw [sortByScoreDesc]
    exact insertDesc_sorted (ih hxs) (fun y hy => hx y (mem_sortByScoreDesc.mp hy))

theorem sortByScoreDesc_of_const {n : Nat} :
    ∀ {l : List Scored}, (∀ s ∈ l, s.score = n) → sortByScoreDesc l = l := by
  intro l
  induction l with
  | nil => intro _; rfl
  | cons x xs ih =>
    intro h
    rw [sortByScoreDesc, ih (fun s hs => h s (List.mem_cons_of_mem _ hs))]
    cases xs with
    | nil => rfl
    | cons y ys =>
      have h1 : x.score = n := h x (List.mem_cons_self _ _)
      have h2 : y.score = n := h y (by simp)
      rw [insertDesc, if_pos (by omega)]


theorem dedupByKey_sublist : ∀ (l : List ManualRef) (seen : List String),
    (dedupByKey l seen).Sublist l
  | [], _ => List.Sublist.slnil
  | r :: rs, seen => by
    rw [dedupByKey]
    by_cases h : seen.contains (refKey r) = true
    · rw [if_pos h]
      exact (dedupByKey_sublist rs seen).cons _
    · rw [if_neg h]
      exact (dedupByKey_sublist rs _).cons₂ _

theorem mem_dedupByKey_not_seen : ∀ {l : List ManualRef} {seen : List String} {y : ManualRef},
    y ∈ dedupByKey l seen → seen.contains (refKey y) = false := by
  intro l
  induction l with
  | nil => intro seen y h; simp [dedupByKey] at h
  | cons r rs ih =>
    intro seen y h
    rw [dedupByKey] at h
    by_cases hc : seen.contains (refKey r) = true
    · rw [if_pos hc] at h
      exact ih h
    · rw [if_neg hc] at h
      rcases List.mem_cons.mp h with rfl | h'
      · simpa using hc
      · have hmem := ih h'
        simp only [List.contains_cons, Bool.or_eq_false_iff] at hmem
        exact hmem.2

theorem dedupByKey_pairwise : ∀ (l : List ManualRef) (seen : List String),
    (dedupByKey l seen).Pairwise (fun a b => refKey a ≠ refKey b)
  | [], _ => List.Pairwise.nil
  | r :: rs, seen => by
    rw [dedupByKey]
    by_cases hc : seen.contains (refKey r) = true
    · rw [if_pos hc]
      exact dedupByKey_pairwise rs seen
    · rw [if_neg hc]
      refine List.pairwise_cons.mpr ⟨?_, dedupByKey_pairwise rs _⟩
      intro y hy heq
      have hns := mem_dedupByKey_not_seen hy
      rw [← heq] at hns
      simp [List.contains_cons] at hns

theorem dedupByKey_covers : ∀ (l : List ManualRef) (seen : List String) (x : ManualRef),
    x ∈ l → seen.contains (refKey x) = true ∨ ∃ y ∈ dedupByKey l seen, refKey y = refKey x
  | [], _, x, hx => by simp at hx
  | r :: rs, seen, x, hx => by
    rw [dedupByKey]
    by_cases hc : seen.contains (refKey r) = true
    · rw [if_pos hc]
      rcases List.mem_cons.mp hx with rfl | hx'
      · exact Or.inl hc
      · exact dedupByKey_covers rs seen x hx'
    · rw [if_neg hc]
      rcases List.mem_cons.mp hx with rfl | hx'
      · exact Or.inr ⟨x, List.mem_cons_self _ _, rfl⟩
      · rcases dedupByKey_covers rs (refKey r :: seen) x hx' with h | ⟨y, hy, hk⟩
        · simp only [List.contains_cons, Bool.or_eq_true] at h
          rcases h with h | h
          · exact Or.inr ⟨r, List.mem_cons_self _ _, (beq_iff_eq.mp h).symm⟩
          · exact Or.inl h
        · exact Or.inr ⟨y, List.mem_cons_of_mem _ hy, hk⟩

theorem dedupRefs_head (l : List ManualRef) : (dedupRefs l).head? = l.head? := by
  cases l with
  | nil => rfl
  | cons r rs => simp [dedupRefs, dedupByKey]

theorem rankedScored_of_chunks_nil {label : String} {kb : KBData} {k : Nat}
    (h : kb.chunks = []) : rankedScored label kb k = [] := by
  simp [rankedScored, scoreAll, h, scoreListFrom, sortByScoreDesc]

theorem searchKB_chunks_eq (label : String) (kb : KBData) (k : Nat) :
    (searchKB label kb k).chunks = (rankedScored label kb k).map (fun s => s.chunk) := by
  by_cases h1 : kb.chunks.isEmpty
  · simp only [searchKB, h1, if_true]
    rw [rankedScored_of_chunks_nil (List.isEmpty_iff.mp h1)]
    rfl
  · by_cases h2 : (rankedScored label kb k).isEmpty
    · simp only [searchKB, h1, h2, if_true, Bool.false_eq_true, if_false]
      rw [List.isEmpty_iff.mp h2]
      rfl
    · simp only [searchKB, h1, h2, Bool.false_eq_true, if_false]

theorem searchKB_refs_eq (label : String) (kb : KBData) (k : Nat) :
    (searchKB label kb k).refs = dedupRefs (rawRefs label kb k) := by
  by_cases h1 : kb.chunks.isEmpty
  · simp only [searchKB, h1, if_true]
    rw [rawRefs, rankedScored_of_chunks_nil (List.isEmpty_iff.mp h1)]
    rfl
  · by_cases h2 : (rankedScored label kb k).isEmpty
    · simp only [searchKB, h1, h2, if_true, Bool.false_eq_true, if_false]
      rw [rawRefs, List.isEmpty_iff.mp h2]
      rfl
    · simp only [searchKB, h1, h2, Bool.false_eq_true, if_false]
      rfl

theorem searchKB_primary_eq (label : String) (kb : KBData) (k : Nat) :
    (searchKB label kb k).primaryRef = (searchKB label kb k).refs.head? := by
  by_cases h1 : kb.chunks.isEmpty
  · simp only [searchKB, h1, if_true]
    rfl
  · by_cases h2 : (rankedScored label kb k).isEmpty
    · simp only [searchKB, h1, h2, if_true, Bool.false_eq_true, if_false]
      rfl
    · simp only [searchKB, h1, h2, Bool.false_eq_true, if_false]

theorem searchKB_context_eq (label : String) (kb : KBData) (k : Nat) :
    (searchKB label kb k).contextText =
      String.intercalate "\n\n" ((rankedScored label kb k).map (fun m => contextLine m.chunk)) := by
  by_cases h1 : kb.chunks.isEmpty
  · simp only [searchKB, h1, if_true]
    rw [rankedScored_of_chunks_nil (List.isEmpty_iff.mp h1)]
    rfl
  · by_cases h2 : (rankedScored label kb k).isEmpty
    · simp only [searchKB, h1, h2, if_true, Bool.false_eq_true, if_false]
      rw [List.isEmpty_iff.mp h2]
      rfl
    · simp only [searchKB, h1, h2, Bool.false_eq_true, if_false]


theorem data_eq_nil_iff {s : String} : s.data = [] ↔ s = "" := by
  cases s with
  | mk d =>
    constructor
    · intro h; subst h; rfl
    · intro h; simpa using congrArg String.data h

theorem lowerStr_eq_empty_iff {s : String} : lowerStr s = "" ↔ s = "" := by
  constructor
  · intro h
    have hd := congrArg String.data h
    simp only [lowerStr] at hd
    have hmap : s.data.map Char.toLower = [] := by simpa using hd
    exact data_eq_nil_iff.mp (List.map_eq_nil_iff.mp hmap)
  · intro h
    subst h
    rfl

theorem charsInfixOf_nil_needle : ∀ (l : List Char), charsInfixOf [] l = true
  | [] => rfl
  | c :: cs => by rw [charsInfixOf]; simp [charsPrefixOf]

theorem jsIncludes_empty_sub (s : String) : jsIncludes s "" = true := by
  rw [jsIncludes]
  exact charsInfixOf_nil_needle s.data

theorem jsIncludes_of_empty {s : String} (h : s ≠ "") : jsIncludes "" s = false := by
  rw [jsIncludes]
  show charsInfixOf s.data [] = false
  have hd : s.data ≠ [] := fun hn => h (data_eq_nil_iff.mp hn)
  cases hs : s.data with
  | nil => exact absurd hs hd
  | cons c cs => rfl

theorem keywordPhraseScore_empty_query : ∀ {kws : List String}, "" ∉ kws →
    keywordPhraseScore kws "" = 0 := by
  intro kws
  induction kws with
  | nil => intro _; rfl
  | cons kw rest ih =>
    intro h
    have hkw : kw ≠ "" := fun he => h (by simp [he])
    have h2 : lowerStr kw ≠ "" := fun he => hkw (lowerStr_eq_empty_iff.mp he)
    have h3 : jsIncludes "" (lowerStr kw) = false := jsIncludes_of_empty h2
    rw [keywordPhraseScore, if_neg h2, h3]
    simp only [Bool.false_and, if_false, Bool.false_eq_true]
    rw [ih (fun hm => h (List.mem_cons_of_mem _ hm))]

theorem scoreChunk_empty_query {c : KBChunk} (hcomp : c.component ≠ "")
    (hkw : "" ∉ c.keywords) :
    scoreChunk "" (queryWordsOf "") c = 12 := by
  have h2 : lowerStr c.component ≠ "" := fun h => hcomp (lowerStr_eq_empty_iff.mp h)
  have h3 : jsIncludes "" (lowerStr c.component) = false := jsIncludes_of_empty h2
  have h4 : jsIncludes (lowerStr c.component) "" = true := jsIncludes_empty_sub _
  have hql : queryWordsOf "" = [] := rfl
  simp only [scoreChunk, hql, List.map_nil, List.sum_nil, List.filter_nil, List.length_nil,
    keywordPhraseScore_empty_query hkw, h3, h4, if_neg h2, if_true, Bool.false_eq_true,
    if_false]

theorem scoreChunk_empty_query_ge (c : KBChunk) :
    12 ≤ scoreChunk "" (queryWordsOf "") c := by
  have h4 : jsIncludes (lowerStr c.component) "" = true := jsIncludes_empty_sub _
  simp only [scoreChunk, h4, if_true]
  omega

theorem rankedScored_empty_query {label : String} {kb : KBData} {k : Nat}
    (hq : normalizeQuery label = "")
    (hall : ∀ c ∈ kb.chunks, c.component ≠ "" ∧ "" ∉ c.keywords) :
    rankedScored label kb k = (scoreAll "" kb.chunks).take k := by
  rw [rankedScored, hq]
  have hsc : ∀ s ∈ scoreAll "" kb.chunks, s.score = 12 := by
    intro s hs
    obtain ⟨hfs, j, -, hget⟩ := mem_scoreListFrom hs
    have hmem : s.chunk ∈ kb.chunks := List.getElem?_mem hget
    obtain ⟨h1, h2⟩ := hall s.chunk hmem
    rw [hfs]
    exact scoreChunk_empty_query h1 h2
  have hfilter : (scoreAll "" kb.chunks).filter (fun s => decide (0 < s.score))
      = scoreAll "" kb.chunks := by
    apply List.filter_eq_self.mpr
    intro s hs
    rw [hsc s hs]
    rfl
  rw [hfilter, sortByScoreDesc_of_const hsc]


theorem searchKBSync_none_state (label : String) (k : Nat) :
    searchKBSync label none k = none := rfl

theorem rankedScoredSync_nil {label : String} {kb : KBData} {k : Nat}
    (h : ∀ c ∈ kb.chunks, syncScore label c = 0) :
    rankedScoredSync label kb k = [] := by
  rw [rankedScoredSync]
  have hfil : (syncScoreAll (normalizeQuery label) kb.chunks).filter
      (fun s => decide (0 < s.score)) = [] := by
    rw [List.filter_eq_nil_iff]
    intro s hs
    obtain ⟨hfs, j, -, hget⟩ := mem_scoreListFrom hs
    have hmem : s.chunk ∈ kb.chunks := List.getElem?_mem hget
    have hz : s.score = 0 := by rw [hfs]; exact h s.chunk hmem
    simp [hz]
  rw [hfil]
  simp [sortByScoreDesc]

theorem searchKBSync_no_match {label : String} {kb : KBData} {k : Nat}
    (h : ∀ c ∈ kb.chunks, syncScore label c = 0) :
    searchKBSync label (some kb) k = none := by
  simp [searchKBSync, rankedScoredSync_nil h]

theorem rankedScored_nil_of_zero {label : String} {kb : KBData} {k : Nat}
    (h : ∀ c ∈ kb.chunks, score label c = 0) :
    rankedScored label kb k = [] := by
  rw [rankedScored]
  have hfil : (scoreAll (normalizeQuery label) kb.chunks).filter
      (fun s => decide (0 < s.score)) = [] := by
    rw [List.filter_eq_nil_iff]
    intro s hs
    obtain ⟨hfs, j, -, hget⟩ := mem_scoreListFrom hs
    have hmem : s.chunk ∈ kb.chunks := List.getElem?_mem hget
    have hz : s.score = 0 := by rw [hfs]; exact h s.chunk hmem
    simp [hz]
  rw [hfil]
  simp [sortByScoreDesc]

theorem syncResultOf_dedup (label : String) (kb : KBData) (k : Nat) :
    (syncResultOf label kb k).refs =
      dedupRefs ((rankedScoredSync label kb k).map (fun m => mkRef m.chunk (defaultPdfOf kb)))
    ∧ (syncResultOf label kb k).primaryRef = (syncResultOf label kb k).refs.head? := by
  rw [syncResultOf]
  by_cases h : (rankedScoredSync label kb k).isEmpty
  · have h2 := List.isEmpty_iff.mp h
    simp [searchKBSync, h, h2, dedupRefs, dedupByKey]
  · simp [searchKBSync, h]


/-- C1 (counterexample): a parsed corpus containing a chunk with `page = 0` —
violating the §3 invariant `page ≥ 1` — loads successfully and unchanged:
`loadKnowledgeBase` produces no `CorpusInvalid` failure, and `allChunks()`
has the full input chunk-list length. -/
theorem c1_page_zero_corpus_loads :
    loadKnowledgeBase (Except.ok badPageCorpus) = badPageCorpus
    ∧ badPageChunk.page < 1
    ∧ (allChunks (loadKnowledgeBase (Except.ok badPageCorpus))).length = 1 :=
  ⟨rfl, by decide, rfl⟩

/-- C1 (amended): `loadKnowledgeBase` performs no invariant validation.
Every successfully parsed corpus — valid or not — is stored exactly as
received, with `allChunks()` length equal to the input chunk-list length;
only a fetch/parse failure is handled, by substituting the empty corpus. -/
theorem c1_load_stores_parsed_corpus_unvalidated (data : KBData) (e : String) :
    loadKnowledgeBase (Except.ok data) = data
    ∧ (allChunks (loadKnowledgeBase (Except.ok data))).length = data.chunks.length
    ∧ loadKnowledgeBase (Except.error e) = emptyKB :=
  ⟨rfl, rfl, rfl⟩

/-- C3 (counterexample): a chunk whose component contains a hyphen scores 0
against its own component as query — normalization strips the hyphen from
the query but the stored component keeps it, so no rule fires. -/
theorem c3_hyphenated_component_scores_zero :
    hyphenChunk.component = "o-320" ∧ score hyphenChunk.component hyphenChunk = 0 :=
  ⟨rfl, by decide⟩

/-- C3 (amended): for every chunk whose lowercased component survives query
normalization unchanged (only characters in `[a-z0-9\s]`), scoring the chunk
against its own component as the query yields at least 25. -/
theorem c3_component_self_score_ge_25 (c : KBChunk)
    (h : normalizeQuery c.component = lowerStr c.component) :
    25 ≤ score c.component c := by
  simp only [score, scoreChunk, h, if_true]
  omega

/-- C3 witness: the amended theorem applied at the spark-plug fixture. -/
theorem c3_component_self_score_witness :
    normalizeQuery sparkChunk.component = lowerStr sparkChunk.component
    ∧ 25 ≤ score sparkChunk.component sparkChunk :=
  ⟨by decide, c3_component_self_score_ge_25 sparkChunk (by decide)⟩

/-- C4 (counterexample): with chunk keywords `["alpha", "bravo"]`, both
contained in the query `"alpha bravo"`, the full-phrase keyword loop adds
the +8 bonus twice (total 16), not once — the +8 branch has no break. -/
theorem c4_two_keywords_add_eight_twice :
    keywordPhraseScore ["alpha", "bravo"] "alpha bravo" = 16 := by decide

/-- C4 (amended): in the full-phrase keyword loop, the +20 exact-match bonus
is contributed at most once (the scan stops at the first exact match), but
the +8 bonus is added once for EVERY qualifying keyword scanned before that
point: the loop's value is 8 times the number of qualifying keywords before
the first exact match, plus 20 when some keyword matches exactly. -/
theorem c4_keyword_phrase_characterization (kws : List String) (q : String) :
    keywordPhraseScore kws q =
      8 * ((kws.takeWhile (fun kw => lowerStr kw != q)).countP (plusEightKw q))
        + (if kws.any (fun kw => lowerStr kw == q) then 20 else 0) := by
  induction kws with
  | nil => simp [keywordPhraseScore]
  | cons kw rest ih =>
    by_cases hq : lowerStr kw = q
    · simp [keywordPhraseScore, hq]
    · have hpq : (lowerStr kw != q) = true := by simp [hq]
      have hbe : (lowerStr kw == q) = false := by simp [hq]
      rw [keywordPhraseScore, if_neg hq, List.takeWhile_cons, if_pos hpq,
        List.countP_cons, List.any_cons, hbe, Bool.false_or, ih]
      simp only [plusEightKw]
      by_cases hp : (jsIncludes q (lowerStr kw) && decide (kw.length > 3)) = true
      · simp [hp]
        omega
      · simp [hp]


/-- C2 (counterexample): priority signals supplied (profile present), not
flagged, annotation "Critical" supplied and a citation found: the computed
line contains the annotation, yet emphasis is `medium` — the claim requires
`high` whenever the annotation contributed. -/
theorem c2_annotation_with_citation_gets_medium :
    isOnTaskCard "spark plug" noCardProfile = false
    ∧ (getOverlaySnippet (some kbMain) "spark plug" (some noCardProfile) (some "Critical")).line
      = some "Critical · Cessna SM p.305, Fig 12-1"
    ∧ (getOverlaySnippet (some kbMain) "spark plug" (some noCardProfile) (some "Critical")).emphasis
      = EmphasisLevel.medium :=
  ⟨rfl, by decide, by decide⟩

/-- C2 (amended): with priority signals supplied and the item not flagged,
a non-empty computed line yields emphasis `medium` exactly when a citation
(manual reference) is present — even when an externally supplied annotation
contributed to the line — and `high` exactly when no citation is present. -/
theorem c2_notflagged_emphasis_by_citation (kbState : Option KBData) (label : String)
    (prof : PersonProfile) (rel : Option String)
    (h : isOnTaskCard label prof = false) :
    ((getOverlaySnippet kbState label (some prof) rel).line).isSome →
      (getOverlaySnippet kbState label (some prof) rel).emphasis =
        (if (getOverlaySnippet kbState label (some prof) rel).manualRef.isSome
         then EmphasisLevel.medium else EmphasisLevel.high) := by
  simp only [getOverlaySnippet, h, Bool.false_and, Bool.false_eq_true, if_false]
  split
  · intro _
    rfl
  · intro hline
    simp at hline

/-- C2 witness: the amended theorem applied at the brake fixture (a citation
is present and no annotation is supplied). -/
theorem c2_notflagged_emphasis_witness :
    isOnTaskCard "brake caliper" noCardProfile = false
    ∧ (((getOverlaySnippet (some kbMain) "brake caliper" (some noCardProfile) none).line).isSome →
        (getOverlaySnippet (some kbMain) "brake caliper" (some noCardProfile) none).emphasis =
          (if (getOverlaySnippet (some kbMain) "brake caliper" (some noCardProfile) none).manualRef.isSome
           then EmphasisLevel.medium else EmphasisLevel.high)) :=
  ⟨rfl, c2_notflagged_emphasis_by_citation (some kbMain) "brake caliper" noCardProfile none rfl⟩

/-- C10: the synchronous lookup returns `null` both while the knowledge base
has not loaded and when nothing scores above zero; the composer then takes
the identical no-citation path in both cases on any inputs; and for a loaded
corpus that does match the label, compose's output differs from the
not-yet-loaded output on the same `(label, profile, annotation)` input. -/
theorem c10_sync_null_cases (label : String) (k : Nat) (kb : KBData)
    (profile : Option PersonProfile) (rel : Option String)
    (h : ∀ c ∈ kb.chunks, syncScore label c = 0) :
    searchKBSync label none k = none
    ∧ searchKBSync label (some kb) k = none
    ∧ getOverlaySnippet none label profile rel = getOverlaySnippet (some kb) label profile rel
    ∧ getOverlaySnippet (some kbMain) "spark plug" none none
        ≠ getOverlaySnippet none "spark plug" none none := by
  refine ⟨rfl, searchKBSync_no_match h, ?_, by decide⟩
  simp only [getOverlaySnippet, searchKBSync_none_state, searchKBSync_no_match h]

/-- C10 witness: the theorem applied at the label "zzzz", which scores zero
against every chunk of the fixture corpus. -/
theorem c10_sync_null_cases_witness :
    (∀ c ∈ kbMain.chunks, syncScore "zzzz" c = 0)
    ∧ (searchKBSync "zzzz" none 3 = none
       ∧ searchKBSync "zzzz" (some kbMain) 3 = none
       ∧ getOverlaySnippet none "zzzz" none none = getOverlaySnippet (some kbMain) "zzzz" none none
       ∧ getOverlaySnippet (some kbMain) "spark plug" none none
           ≠ getOverlaySnippet none "spark plug" none none) :=
  ⟨by decide, c10_sync_null_cases "zzzz" 3 kbMain none none (by decide)⟩


/-- C7: against an empty corpus, or when every chunk scores zero for the
query, retrieval returns (without failing) the empty result — no ranked
chunks, no citations, no primary citation, empty context text — and the two
cases produce the identical value. -/
theorem c7_no_match_empty_result (label : String) (kb : KBData) (k : Nat)
    (h : kb.chunks = [] ∨ ∀ c ∈ kb.chunks, score label c = 0) :
    searchKB label kb k
      = { chunks := [], primaryRef := none, refs := [], contextText := "" } := by
  rcases h with h | h
  · simp [searchKB, h]
  · by_cases h1 : kb.chunks.isEmpty
    · simp [searchKB, h1]
    · have h2 : rankedScored label kb k = [] := rankedScored_nil_of_zero h
      simp [searchKB, h1, h2]

/-- C7 witness: retrieval against the empty corpus. -/
theorem c7_no_match_empty_result_witness :
    (emptyKB.chunks = [] ∨ ∀ c ∈ emptyKB.chunks, score "torque" c = 0)
    ∧ searchKB "torque" emptyKB 3
        = { chunks := [], primaryRef := none, refs := [], contextText := "" } :=
  ⟨Or.inl rfl, c7_no_match_empty_result "torque" emptyKB 3 (Or.inl rfl)⟩

/-- C8 (counterexample): for a ranked chunk carrying a figure, the emitted
context line appends the figure as a parenthesized suffix " (Figure f: t)"
after the page — not as ", Figure f: t" as the claim's format states. -/
theorem c8_figure_format_counterexample :
    (searchKB "spark plug" kbMain 5).contextText =
      "[Cessna SM Section 74, p.305 (Figure 12-1: Engine Ignition)]: Spark plug service and gap."
    ∧ (searchKB "spark plug" kbMain 5).contextText ≠
      "[Cessna SM Section 74, p.305, Figure 12-1: Engine Ignition]: Spark plug service and gap." :=
  ⟨by decide, by decide⟩

/-- C8 (amended): for every retrieval, `contextText` is exactly the ranked
chunks' lines joined by a blank line, each line being
`[<name> Section <section>, p.<page>]: <content>` with the figure part
` (Figure <figure>: <figureTitle>)` inserted before the closing bracket
exactly when the chunk's figure field is a non-empty string. -/
theorem c8_context_text_format (label : String) (kb : KBData) (k : Nat) :
    (searchKB label kb k).contextText =
      String.intercalate "\n\n" ((searchKB label kb k).chunks.map contextLine) := by
  rw [searchKB_context_eq, searchKB_chunks_eq, List.map_map]
  rfl

/-- C9 (counterexample): with a punctuation-only query (normalizing to the
empty string), a later-loaded chunk whose component is the empty string
scores 49 and outranks the first-loaded chunk, so the ranked chunks are not
the first `maxResults` corpus chunks in load order. -/
theorem c9_empty_component_outranks :
    normalizeQuery "!!!" = ""
    ∧ kbEmptyComp.chunks = [alphaChunk, emptyCompChunk]
    ∧ (searchKB "!!!" kbEmptyComp 1).chunks = [emptyCompChunk]
    ∧ (searchKB "!!!" kbEmptyComp 1).chunks ≠ kbEmptyComp.chunks.take 1 :=
  ⟨by decide, rfl, by decide, by decide⟩

/-- C9 (amended): when the query normalizes to the empty string, every chunk
with a non-empty component scores at least 12 (every component contains the
empty string); when additionally every chunk has a non-empty component and
no empty-string keyword, every score is exactly 12 and the ranked chunks are
the first `maxResults` corpus chunks in load order. -/
theorem c9_empty_query_first_k (label : String) (kb : KBData) (k : Nat)
    (hq : normalizeQuery label = "") :
    (∀ c ∈ kb.chunks, c.component ≠ "" → 12 ≤ score label c)
    ∧ ((∀ c ∈ kb.chunks, c.component ≠ "" ∧ "" ∉ c.keywords) →
        (searchKB label kb k).chunks = kb.chunks.take k) := by
  constructor
  · intro c _ _
    simp only [score, hq]
    exact scoreChunk_empty_query_ge c
  · intro hall
    rw [searchKB_chunks_eq, rankedScored_empty_query hq hall, List.map_take]
    simp only [scoreAll]
    rw [scoreListFrom_map_chunk]

/-- C9 witness: the theorem applied at a punctuation-only label over the
fixture corpus (all components non-empty, no empty keywords). -/
theorem c9_empty_query_witness :
    normalizeQuery "!!!" = ""
    ∧ ((∀ c ∈ kbMain.chunks, c.component ≠ "" → 12 ≤ score "!!!" c)
       ∧ ((∀ c ∈ kbMain.chunks, c.component ≠ "" ∧ "" ∉ c.keywords) →
           (searchKB "!!!" kbMain 1).chunks = kbMain.chunks.take 1)) :=
  ⟨by decide, c9_empty_query_first_k "!!!" kbMain 1 (by decide)⟩


/-- C5: the ranked chunks of a retrieval are exactly the positive-scoring
chunks, stable-sorted by descending score with ties broken by original
corpus position, truncated to `maxResults`: every ranked entry has positive
score and sits at its recorded corpus position, the ranking is strictly
ordered by (score descending, corpus position ascending), and at most
`maxResults` entries are returned. -/
theorem c5_retrieve_ranked_props (label : String) (kb : KBData) (k : Nat) (_hk : 0 < k) :
    (searchKB label kb k).chunks = (rankedScored label kb k).map (fun s => s.chunk)
    ∧ (∀ s ∈ rankedScored label kb k,
        0 < s.score ∧ s.score = score label s.chunk ∧ kb.chunks[s.idx]? = some s.chunk)
    ∧ (rankedScored label kb k).Pairwise rankLT
    ∧ (rankedScored label kb k).length ≤ k := by
  refine ⟨searchKB_chunks_eq label kb k, ?_, ?_, ?_⟩
  · intro s hs
    rw [rankedScored] at hs
    have hs1 := List.take_subset _ _ hs
    have hs2 := mem_sortByScoreDesc.mp hs1
    obtain ⟨hs3, hpos⟩ := List.mem_filter.mp hs2
    obtain ⟨hsc, j, hidx, hget⟩ := mem_scoreListFrom hs3
    have hj : j = s.idx := by omega
    subst hj
    exact ⟨of_decide_eq_true hpos, hsc, hget⟩
  · rw [rankedScored]
    refine List.Pairwise.sublist (List.take_sublist _ _) ?_
    refine sortByScoreDesc_sorted ?_
    exact List.Pairwise.sublist (List.filter_sublist _) (scoreListFrom_idx_pairwise _ 0 kb.chunks)
  · rw [rankedScored]
    simp only [List.length_take]
    omega

/-- C5 witness: the theorem applied at the fixture corpus with
`maxResults = 3`. -/
theorem c5_retrieve_ranked_props_witness :
    0 < 3
    ∧ ((searchKB "spark plug" kbMain 3).chunks
        = (rankedScored "spark plug" kbMain 3).map (fun s => s.chunk)
       ∧ (∀ s ∈ rankedScored "spark plug" kbMain 3,
           0 < s.score ∧ s.score = score "spark plug" s.chunk
             ∧ kbMain.chunks[s.idx]? = some s.chunk)
       ∧ (rankedScored "spark plug" kbMain 3).Pairwise rankLT
       ∧ (rankedScored "spark plug" kbMain 3).length ≤ 3) :=
  ⟨by decide, c5_retrieve_ranked_props "spark plug" kbMain 3 (by decide)⟩

/-- C6: the citation list never contains two entries with the same
(manual name, page) pair; it is the rank-ordered raw citation list with
later key-duplicates dropped — an order-preserving sublist covering every
key, whose head is the highest-ranked citation — and the primary citation is
the head of the list (`none` when it is empty), for both `searchKB` and the
synchronous variant. -/
theorem c6_citations_dedup_props (label : String) (kb : KBData) (k : Nat) :
    (searchKB label kb k).refs = dedupRefs (rawRefs label kb k)
    ∧ (searchKB label kb k).refs.Sublist (rawRefs label kb k)
    ∧ (searchKB label kb k).refs.Pairwise
        (fun a b => ¬(a.manualName = b.manualName ∧ a.page = b.page))
    ∧ (∀ r ∈ rawRefs label kb k, ∃ u ∈ (searchKB label kb k).refs, refKey u = refKey r)
    ∧ ((searchKB label kb k).refs).head? = (rawRefs label kb k).head?
    ∧ (searchKB label kb k).primaryRef = ((searchKB label kb k).refs).head?
    ∧ (syncResultOf label kb k).refs.Pairwise
        (fun a b => ¬(a.manualName = b.manualName ∧ a.page = b.page))
    ∧ (syncResultOf label kb k).primaryRef = ((syncResultOf label kb k).refs).head? := by
  have hrefs := searchKB_refs_eq label kb k
  have key_pair : ∀ (l : List ManualRef), (dedupRefs l).Pairwise
      (fun a b => ¬(a.manualName = b.manualName ∧ a.page = b.page)) := by
    intro l
    refine (dedupByKey_pairwise l []).imp ?_
    intro a b hne hab
    exact hne (by simp [refKey, hab.1, hab.2])
  refine ⟨hrefs, ?_, ?_, ?_, ?_, searchKB_primary_eq label kb k, ?_,
    (syncResultOf_dedup label kb k).2⟩
  · rw [hrefs]
    exact dedupByKey_sublist _ _
  · rw [hrefs]
    exact key_pair _
  · intro r hr
    rw [hrefs]
    rcases dedupByKey_covers (rawRefs label kb k) [] r hr with h | h
    · simp at h
    · exact h
  · rw [hrefs]
    exact dedupRefs_head _
  · rw [(syncResultOf_dedup label kb k).1]
    exact key_pair _

end FlightSight
